import Mathlib

/-!
Verification of the session-cookie bridging client (`app/server.ts`) and the
route handlers (`app/routes/crud.tsx`, `app/routes/home.tsx`) of a
server-rendered React Router + Supabase application.

The per-request Headers accumulators are modelled with an explicit heap of
references (a `World`), so that object identity, sharing between the handle
closures and the returned accumulator, and isolation between requests are all
expressible. The cookie grammar (parsing, percent en/decoding, Set-Cookie
serialization) follows the spec, since the `@supabase/ssr` helpers the source
delegates to are a third-party dependency, not part of this repository.
-/

namespace SbApp

/-! ### Character-level utilities for the cookie grammar -/

/-- Split a list of characters on every occurrence of the separator.
The result is never empty and no piece contains the separator. -/
def splitOnChar (sep : Char) : List Char → List (List Char)
  | [] => [[]]
  | c :: rest =>
    if c = sep then [] :: splitOnChar sep rest
    else
      match splitOnChar sep rest with
      | [] => [[c]]
      | s :: ss => (c :: s) :: ss

/-- Whitespace tolerated around cookie names and values (space, horizontal tab). -/
def isOWS (c : Char) : Bool := c == Char.ofNat 32 || c == Char.ofNat 9

/-- Remove leading and trailing optional whitespace. -/
def trimOWS (l : List Char) : List Char :=
  ((l.dropWhile isOWS).reverse.dropWhile isOWS).reverse

/-- Split a list of characters at the first equals sign, if any. -/
def splitFirstEq : List Char → Option (List Char × List Char)
  | [] => none
  | c :: rest =>
    if c = Char.ofNat 61 then some ([], rest)
    else (splitFirstEq rest).map (fun p => (c :: p.1, p.2))

/-! ### Byte-level model of the standard percent-encoding transform -/

/-- Numeric value of a hexadecimal digit character, upper or lower case. -/
def hexVal (c : Char) : Option Nat :=
  if 48 ≤ c.toNat ∧ c.toNat ≤ 57 then some (c.toNat - 48)
  else if 65 ≤ c.toNat ∧ c.toNat ≤ 70 then some (c.toNat - 55)
  else if 97 ≤ c.toNat ∧ c.toNat ≤ 102 then some (c.toNat - 87)
  else none

/-- The hexadecimal digit character for a value below 16 (upper-case letters). -/
def hexDigit (n : Nat) : Char :=
  if n < 10 then Char.ofNat (48 + n) else Char.ofNat (55 + n)

/-- The percent sign. -/
def percentChar : Char := Char.ofNat 37

/-- Characters the standard percent-encoding transform leaves unescaped:
alphanumerics and the marks dash, underscore, dot, bang, tilde, star,
single quote, parentheses. -/
def isUnescaped (c : Char) : Bool :=
  c.isAlphanum ||
    ([Char.ofNat 45, Char.ofNat 95, Char.ofNat 46, Char.ofNat 33, Char.ofNat 126,
      Char.ofNat 42, Char.ofNat 39, Char.ofNat 40, Char.ofNat 41] : List Char).contains c

/-- Percent-encode one character (byte-level model). -/
def encodeChar (c : Char) : List Char :=
  if isUnescaped c then [c]
  else [percentChar, hexDigit (c.toNat / 16 % 16), hexDigit (c.toNat % 16)]

/-- Percent-encode a list of characters. -/
def encodeList (l : List Char) : List Char := l.flatMap encodeChar

/-- Percent-decode; fails (like a decoding exception) when a percent sign is
not followed by two hexadecimal digits. Byte-level model. -/
def decodeList : List Char → Option (List Char)
  | [] => some []
  | c :: rest =>
    if c = percentChar then
      match rest with
      | h1 :: h2 :: rest2 =>
        match hexVal h1, hexVal h2 with
        | some a, some b => (decodeList rest2).map (fun t => Char.ofNat (16 * a + b) :: t)
        | _, _ => none
      | _ => none
    else (decodeList rest).map (fun t => c :: t)

/-- Decode attempt used by the cookie parser: on failure the raw text is kept
(the library catches the decoding error and returns the input unchanged). -/
def tryDecode (l : List Char) : List Char :=
  match decodeList l with
  | some d => d
  | none => l

/-! ### The cookie data model -/

/-- One name/value pair of the InboundCookieSet. -/
structure Cookie where
  name : String
  value : String
deriving DecidableEq, Repr

/-- Modelled from the spec: the attributes accepted by the Set-Cookie
serialization (path, expiry as Max-Age, same-site policy); the
serializeCookieHeader helper of @supabase/ssr is a dependency, not part of
this repository. -/
structure CookieOptions where
  path : Option String := none
  maxAge : Option Nat := none
  sameSite : Option String := none
deriving DecidableEq, Repr

/-- One cookie-set instruction handed to the write callback. -/
structure CookieToSet where
  name : String
  value : String
  options : CookieOptions
deriving DecidableEq, Repr

/-- Modelled from the spec: one segment of a Cookie header. A segment with no
equals sign is skipped by the parser; otherwise the name is the trimmed text
before the first equals sign and the value the trimmed, percent-decoded rest. -/
def parseCookieSegment (seg : List Char) : Option Cookie :=
  match splitFirstEq seg with
  | none => none
  | some (n, v) => some ⟨String.mk (trimOWS n), String.mk (tryDecode (trimOWS v))⟩

/-- Modelled from the spec: parseCookieHeader of @supabase/ssr (a dependency,
not part of this repository) reads a Cookie header as semicolon-separated
name=value pairs with percent-decoded values; unparsable segments are dropped
silently and an absent or empty header yields the empty set. -/
def parseCookieHeader (s : String) : List Cookie :=
  (splitOnChar (Char.ofNat 59) s.toList).filterMap parseCookieSegment

/-- Serialization of the optional cookie attributes. -/
def optionsSuffix (o : CookieOptions) : String :=
  (match o.maxAge with
   | some n => "; Max-Age=" ++ toString n
   | none => "") ++
  (match o.path with
   | some p => "; Path=" ++ p
   | none => "") ++
  (match o.sameSite with
   | some s => "; SameSite=" ++ s
   | none => "")

/-- Modelled from the spec: serializeCookieHeader of @supabase/ssr (a
dependency, not part of this repository): name, equals sign, percent-encoded
value, then the attribute suffix, matching standard Set-Cookie syntax. -/
def serializeCookieHeader (name value : String) (o : CookieOptions) : String :=
  String.mk (name.toList ++ Char.ofNat 61 :: encodeList value.toList ++ (optionsSuffix o).toList)

/-! ### The session-bridging client of app/server.ts -/

/-- The two process-scoped configuration values read from process.env. -/
structure Env where
  SUPABASE_URL : Option String
  SUPABASE_ANON_KEY : Option String
deriving DecidableEq, Repr

/-- An inbound HTTP request, reduced to the one header the component reads:
request.headers.get Cookie, which is null when the header is absent. -/
structure Request where
  cookieHeader : Option String
deriving DecidableEq, Repr

/-- The error thrown when a configuration value is absent. -/
inductive ConfigError where
  | missingConfig
deriving DecidableEq, Repr

/-- The store of per-request Headers objects: every allocated Headers
accumulator is a reference into this heap, so that object identity and
sharing are expressible. -/
structure World where
  nextRef : Nat
  heap : Nat → List (String × String)

/-- The client handle built by createServerClient: its cookie callbacks are
closures capturing the request (read side) and the reference to the Headers
accumulator (write side). -/
structure ClientHandle where
  cookiesRef : Nat
  request : Request

/-- The value getServerClient returns: the client together with the headers
accumulator (as a reference) and the world after the allocation. -/
structure GSCResult where
  client : ClientHandle
  headersRef : Nat
  world : World

/-- getServerClient of app/server.ts: allocates a fresh empty Headers object,
builds the Supabase server client whose cookie callbacks capture the request
and that same Headers object, and returns both. The presence check on the two
configuration values is modelled from the spec (createServerClient of
@supabase/ssr is a dependency, not part of this repository; the spec says the
values are validated only for presence). -/
def getServerClient (env : Env) (request : Request) (w : World) :
    Except ConfigError GSCResult :=
  match env.SUPABASE_URL, env.SUPABASE_ANON_KEY with
  | some _, some _ =>
    .ok ⟨⟨w.nextRef, request⟩, w.nextRef,
      ⟨w.nextRef + 1, fun i => if i = w.nextRef then [] else w.heap i⟩⟩
  | _, _ => .error ConfigError.missingConfig

/-- The read callback getAll: parse the Cookie header of the captured request,
with the empty string when the header is absent. The source also carries a
fallback to an empty set for a null parse result, which the total parser
never produces. -/
def getAll (request : Request) : List Cookie :=
  parseCookieHeader (request.cookieHeader.getD "")

/-- Invoking the read callback of a handle. -/
def invokeGetAll (c : ClientHandle) : List Cookie := getAll c.request

/-- headers.append: appends one header pair at the end of one accumulator,
leaving every other accumulator unchanged. -/
def headersAppend (w : World) (ref : Nat) (hv : String × String) : World :=
  ⟨w.nextRef, fun i => if i = ref then w.heap i ++ [hv] else w.heap i⟩

/-- The serialized Set-Cookie header pair for one cookie-set instruction. -/
def serializeEntry (ck : CookieToSet) : String × String :=
  ("Set-Cookie", serializeCookieHeader ck.name ck.value ck.options)

/-- The write callback setAll: for each instruction of the batch, in order,
append the serialized Set-Cookie header to the captured Headers accumulator. -/
def invokeSetAll (c : ClientHandle) (cookiesToSet : List CookieToSet) (w : World) : World :=
  cookiesToSet.foldl (fun wa ck => headersAppend wa c.cookiesRef (serializeEntry ck)) w

/-- A sequence of write-callback invocations on one handle during one
request-handling cycle. -/
def runSetAllCalls (c : ClientHandle) (invs : List (List CookieToSet)) (w : World) : World :=
  invs.foldl (fun wa batch => invokeSetAll c batch wa) w

/-- An interleaving of write-callback invocations on two handles: true selects
the first handle. -/
def runInterleaved (ca cb : ClientHandle) (ops : List (Bool × List CookieToSet))
    (w : World) : World :=
  ops.foldl (fun wa op => invokeSetAll (if op.1 then ca else cb) op.2 wa) w

/-- The batches an interleaving sends to the handle selected by the flag. -/
def writesFor (b : Bool) (ops : List (Bool × List CookieToSet)) : List CookieToSet :=
  ((ops.filter (fun o => o.1 == b)).map (fun o => o.2)).flatten

/-- Module evaluation of app/server.ts at process start: the file contains no
top-level configuration check (the environment is read only inside
getServerClient, under TypeScript non-null assertions), so process start
always succeeds. -/
def processStart (_env : Env) : Except ConfigError Unit := .ok ()

/-! ### The crud route action of app/routes/crud.tsx -/

/-- A parsed form: ordered field entries; get returns the first value for a
name, or null when the field is absent. -/
structure FormData where
  entries : List (String × String)
deriving DecidableEq, Repr

/-- formData.get. -/
def FormData.get (fd : FormData) (k : String) : Option String :=
  (fd.entries.find? (fun e => e.1 == k)).map (fun e => e.2)

/-- One row of the items table. -/
structure Item where
  id : Nat
  name : String
  description : String
deriving DecidableEq, Repr

/-- The database operations the crud action can issue. -/
inductive DbOp where
  | insertItem (name description : Option String)
  | updateItem (id name description : Option String)
  | deleteItem (id : Option String)
deriving DecidableEq, Repr

/-- Possible outcomes of one database call: a thrown exception, a Supabase
error value carrying a message, or a row list. -/
inductive DbOutcome where
  | throws
  | errs (msg : String)
  | okRows (rows : List Item)
deriving DecidableEq, Repr

/-- The value a route action resolves with: an optional data row and an
optional error message (an absent field and a null field are both none). -/
structure ActionResult where
  data : Option Item
  error : Option String
deriving DecidableEq, Repr

/-- The try block of the crud route action: build the server client, parse the
form data, dispatch on actionType, issue at most one database call. A thrown
exception anywhere is the error case; the second component records the
database operations issued, in order. The form-parse outcome and the database
outcomes are oracle inputs. -/
def actionBody (env : Env) (w : World) (req : Request) (fdE : Except Unit FormData)
    (db : DbOp → DbOutcome) : Except Unit ActionResult × List DbOp :=
  match getServerClient env req w with
  | .error _ => (.error (), [])
  | .ok _ =>
    match fdE with
    | .error _ => (.error (), [])
    | .ok fd =>
      if fd.get "actionType" = some "addItem" then
        let op := DbOp.insertItem (fd.get "name") (fd.get "description")
        match db op with
        | .throws => (.error (), [op])
        | .errs m => (.ok ⟨none, some m⟩, [op])
        | .okRows rows => (.ok ⟨rows.head?, none⟩, [op])
      else if fd.get "actionType" = some "editItem" then
        let op := DbOp.updateItem (fd.get "id") (fd.get "name") (fd.get "description")
        match db op with
        | .throws => (.error (), [op])
        | .errs m => (.ok ⟨none, some m⟩, [op])
        | .okRows rows => (.ok ⟨rows.head?, none⟩, [op])
      else if fd.get "actionType" = some "deleteItem" then
        let op := DbOp.deleteItem (fd.get "id")
        match db op with
        | .throws => (.error (), [op])
        | .errs m => (.ok ⟨none, some m⟩, [op])
        | .okRows _ => (.ok ⟨none, none⟩, [op])
      else (.ok ⟨none, some "Invalid action type"⟩, [])

/-- The crud route action: the try block wrapped in the catch handler that
converts any thrown exception into the fixed error value. -/
def crudAction (env : Env) (w : World) (req : Request) (fdE : Except Unit FormData)
    (db : DbOp → DbOutcome) : ActionResult × List DbOp :=
  match actionBody env w req fdE db with
  | (.ok r, log) => (r, log)
  | (.error _, log) => (⟨none, some "An error occurred"⟩, log)

/-! ### The home route loader of app/routes/home.tsx -/

/-- An authenticated user as returned by the auth service. -/
structure SbUser where
  email : String
deriving DecidableEq, Repr

/-- The response of auth.getUser: data.user and error. -/
structure UserResponse where
  user : Option SbUser
  error : Option String
deriving DecidableEq, Repr

/-- What the home loader can throw: the configuration exception propagating
out of getServerClient, the TypeError from calling getUser on an undefined
member, or a thrown redirect response. -/
inductive LoaderThrow where
  | config
  | typeError
  | redirectTo (path : String)
deriving DecidableEq, Repr

/-- The value the home loader returns on its fall-through path; the user field
is typed as possibly null because of the or-null fallback in the source. -/
structure HomeData where
  user : Option SbUser
deriving DecidableEq, Repr

/-- The auth member access on the value getServerClient returns: that wrapper
holds only the client and headers fields and nothing named auth, so the
access yields undefined (none). The auth service is reachable only through
the client field, which the home loader does not use. -/
def gscAuth (_r : GSCResult) : Option Unit := none

/-- The home route loader: build the server client, then call getUser on the
auth member of the returned wrapper. That member is undefined (the wrapper
has only client and headers), so the call site throws a TypeError on every
request and the loader has no try/catch around it; the subsequent guard
(throw a redirect to /login on an error or missing user) and the user return
are unreachable. The getUser response stays an oracle input feeding those
unreachable branches. -/
def homeLoader (env : Env) (w : World) (req : Request) (resp : UserResponse) :
    Except LoaderThrow HomeData :=
  match getServerClient env req w with
  | .error _ => .error LoaderThrow.config
  | .ok r =>
    match gscAuth r with
    | none => .error LoaderThrow.typeError
    | some _ =>
      if resp.error.isSome || resp.user.isNone then .error (LoaderThrow.redirectTo "/login")
      else .ok ⟨resp.user⟩

/-! ### Concrete instances used by witnesses and counterexamples -/

/-- A configured environment. -/
def envDemo : Env := ⟨some "https://example.supabase.co", some "anon-key"⟩

/-- An environment with both configuration values absent. -/
def envMissing : Env := ⟨none, none⟩

/-- A world with no accumulator allocated yet. -/
def worldDemo : World := ⟨0, fun _ => []⟩

/-- A request presenting the cookie sid=abc. -/
def reqDemoA : Request := ⟨some "sid=abc"⟩

/-- A request presenting the cookie sid=xyz. -/
def reqDemoB : Request := ⟨some "sid=xyz"⟩

/-- A request with no Cookie header. -/
def reqEmpty : Request := ⟨none⟩

/-- A request with an unparsable Cookie header (no equals sign anywhere). -/
def reqGarbage : Request := ⟨some "complete garbage header"⟩

/-- The result of getServerClient for reqDemoA on worldDemo. -/
def gscDemoA : GSCResult :=
  ⟨⟨0, reqDemoA⟩, 0, ⟨1, fun i => if i = 0 then [] else worldDemo.heap i⟩⟩

/-- The result of getServerClient for reqDemoB on the world of gscDemoA. -/
def gscDemoB : GSCResult :=
  ⟨⟨1, reqDemoB⟩, 1, ⟨2, fun i => if i = 1 then [] else gscDemoA.world.heap i⟩⟩

/-- The result of getServerClient for reqEmpty on worldDemo. -/
def gscEmpty : GSCResult :=
  ⟨⟨0, reqEmpty⟩, 0, ⟨1, fun i => if i = 0 then [] else worldDemo.heap i⟩⟩

/-- Cookie-set instructions without attributes. -/
def noOpts : CookieOptions := ⟨none, none, none⟩

/-! ### Helper lemmas: splitting and trimming -/

theorem splitOnChar_ne_nil (sep : Char) (l : List Char) : splitOnChar sep l ≠ [] := by
  cases l with
  | nil => simp [splitOnChar]
  | cons c rest =>
    simp only [splitOnChar]
    split
    · simp
    · split <;> simp

theorem not_sep_of_mem_splitOnChar {sep : Char} : ∀ {l seg : List Char},
    seg ∈ splitOnChar sep l → sep ∉ seg := by
  intro l
  induction l with
  | nil =>
    intro seg h
    simp only [splitOnChar, List.mem_singleton] at h
    simp [h]
  | cons c rest ih =>
    intro seg h
    simp only [splitOnChar] at h
    by_cases hc : c = sep
    · rw [if_pos hc] at h
      rcases List.mem_cons.mp h with h1 | h1
      · simp [h1]
      · exact ih h1
    · rw [if_neg hc] at h
      cases hr : splitOnChar sep rest with
      | nil => exact absurd hr (splitOnChar_ne_nil sep rest)
      | cons s ss =>
        rw [hr] at h
        have hs : s ∈ splitOnChar sep rest := by rw [hr]; exact List.mem_cons_self s ss
        rcases List.mem_cons.mp h with h1 | h1
        · subst h1
          intro hmem
          rcases List.mem_cons.mp hmem with h2 | h2
          · exact hc h2.symm
          · exact ih hs h2
        · exact ih (by rw [hr]; exact List.mem_cons_of_mem s h1)

theorem mem_of_mem_splitOnChar {sep : Char} : ∀ {l seg : List Char},
    seg ∈ splitOnChar sep l → ∀ c ∈ seg, c ∈ l := by
  intro l
  induction l with
  | nil =>
    intro seg h
    simp only [splitOnChar, List.mem_singleton] at h
    simp [h]
  | cons c rest ih =>
    intro seg h d hd
    simp only [splitOnChar] at h
    by_cases hc : c = sep
    · rw [if_pos hc] at h
      rcases List.mem_cons.mp h with h1 | h1
      · subst h1; simp at hd
      · exact List.mem_cons_of_mem c (ih h1 d hd)
    · rw [if_neg hc] at h
      cases hr : splitOnChar sep rest with
      | nil => exact absurd hr (splitOnChar_ne_nil sep rest)
      | cons s ss =>
        rw [hr] at h
        have hs : s ∈ splitOnChar sep rest := by rw [hr]; exact List.mem_cons_self s ss
        rcases List.mem_cons.mp h with h1 | h1
        · subst h1
          rcases List.mem_cons.mp hd with h2 | h2
          · simp [h2]
          · exact List.mem_cons_of_mem c (ih hs d h2)
        · exact List.mem_cons_of_mem c
            (ih (by rw [hr]; exact List.mem_cons_of_mem s h1) d hd)

theorem splitOnChar_eq_single {sep : Char} : ∀ {l : List Char}, sep ∉ l →
    splitOnChar sep l = [l] := by
  intro l
  induction l with
  | nil => intro _; rfl
  | cons c rest ih =>
    intro h
    have hc : ¬ c = sep := fun hh => h (by simp [hh])
    simp only [splitOnChar, if_neg hc]
    rw [ih (fun hm => h (List.mem_cons_of_mem c hm))]

theorem splitFirstEq_eq_some : ∀ {l n v : List Char}, splitFirstEq l = some (n, v) →
    l = n ++ Char.ofNat 61 :: v ∧ Char.ofNat 61 ∉ n := by
  intro l
  induction l with
  | nil => intro n v h; simp [splitFirstEq] at h
  | cons c rest ih =>
    intro n v h
    simp only [splitFirstEq] at h
    by_cases hc : c = Char.ofNat 61
    · rw [if_pos hc] at h
      simp only [Option.some.injEq, Prod.mk.injEq] at h
      obtain ⟨hn, hv⟩ := h
      subst hn; subst hv
      exact ⟨by rw [hc]; rfl, by simp⟩
    · rw [if_neg hc] at h
      obtain ⟨⟨n0, v0⟩, hrest, hf⟩ := Option.map_eq_some'.mp h
      simp only [Prod.mk.injEq] at hf
      obtain ⟨hn, hv⟩ := hf
      subst hn; subst hv
      obtain ⟨he, hm⟩ := ih hrest
      constructor
      · rw [he]; rfl
      · intro hmem
        rcases List.mem_cons.mp hmem with h2 | h2
        · exact hc h2.symm
        · exact hm h2

theorem splitFirstEq_append : ∀ {n : List Char}, Char.ofNat 61 ∉ n →
    ∀ (v : List Char), splitFirstEq (n ++ Char.ofNat 61 :: v) = some (n, v) := by
  intro n
  induction n with
  | nil => intro _ v; simp [splitFirstEq]
  | cons c n0 ih =>
    intro h v
    have hc : ¬ c = Char.ofNat 61 := fun hh => h (by simp [hh])
    rw [List.cons_append]
    simp only [splitFirstEq, if_neg hc]
    rw [ih (fun hm => h (List.mem_cons_of_mem c hm)) v]
    rfl

theorem dropWhile_head_false {p : Char → Bool} : ∀ {l : List Char} {a : Char} {t : List Char},
    List.dropWhile p l = a :: t → p a = false := by
  intro l
  induction l with
  | nil => intro a t h; simp [List.dropWhile] at h
  | cons c rest ih =>
    intro a t h
    by_cases hc : p c
    · rw [List.dropWhile_cons, if_pos hc] at h; exact ih h
    · rw [List.dropWhile_cons, if_neg hc] at h
      cases h
      exact Bool.eq_false_iff.mpr hc

theorem dropWhile_eq_self_of_head {p : Char → Bool} {l : List Char}
    (h : ∀ a t, l = a :: t → p a = false) : List.dropWhile p l = l := by
  cases l with
  | nil => rfl
  | cons c rest =>
    rw [List.dropWhile_cons, if_neg (by simp [h c rest rfl])]

theorem dropWhile_eq_self_of_all {p : Char → Bool} {l : List Char}
    (h : ∀ c ∈ l, p c = false) : List.dropWhile p l = l :=
  dropWhile_eq_self_of_head (fun a t hl => h a (by rw [hl]; exact List.mem_cons_self a t))

theorem dropWhile_idem {p : Char → Bool} (l : List Char) :
    List.dropWhile p (List.dropWhile p l) = List.dropWhile p l := by
  cases h : List.dropWhile p l with
  | nil => rfl
  | cons a t =>
    have ha := dropWhile_head_false h
    rw [List.dropWhile_cons, if_neg (by simp [ha])]

theorem mem_of_mem_dropWhile {p : Char → Bool} {l : List Char} {c : Char}
    (h : c ∈ List.dropWhile p l) : c ∈ l :=
  ((List.dropWhile_suffix p).sublist).mem h

theorem mem_of_mem_trimOWS {l : List Char} {c : Char} (h : c ∈ trimOWS l) : c ∈ l := by
  unfold trimOWS at h
  rw [List.mem_reverse] at h
  have h1 := mem_of_mem_dropWhile h
  rw [List.mem_reverse] at h1
  exact mem_of_mem_dropWhile h1

theorem trimOWS_eq_self_of_all {l : List Char}
    (h : ∀ c ∈ l, isOWS c = false) : trimOWS l = l := by
  unfold trimOWS
  rw [dropWhile_eq_self_of_all h]
  rw [dropWhile_eq_self_of_all (fun c hc => h c (List.mem_reverse.mp hc))]
  exact List.reverse_reverse l

theorem trimOWS_idem (l : List Char) : trimOWS (trimOWS l) = trimOWS l := by
  have key : List.dropWhile isOWS (trimOWS l) = trimOWS l := by
    cases hB : trimOWS l with
    | nil => rfl
    | cons a t =>
      obtain ⟨tt, htt⟩ :=
        List.dropWhile_suffix (l := (List.dropWhile isOWS l).reverse) isOWS
      have hApre : List.dropWhile isOWS l = trimOWS l ++ tt.reverse := by
        unfold trimOWS
        have h2 := congrArg List.reverse htt
        rw [List.reverse_append, List.reverse_reverse] at h2
        exact h2.symm
      rw [hB] at hApre
      have ha : isOWS a = false := by
        refine dropWhile_head_false (l := l) (t := t ++ tt.reverse) ?_
        rw [hApre]; rfl
      rw [List.dropWhile_cons, if_neg (by simp [ha])]
  conv_lhs => rw [trimOWS, key, trimOWS]
  rw [List.reverse_reverse, dropWhile_idem]
  rfl

/-! ### Helper lemmas: the percent-encoding transform -/

theorem toNat_ofNat_lt {n : Nat} (h : n < 256) : (Char.ofNat n).toNat = n := by
  have hv : n.isValidChar := Or.inl (by omega)
  rw [Char.ofNat, dif_pos hv]
  rfl

theorem hexVal_lt16 {c : Char} {a : Nat} (h : hexVal c = some a) : a < 16 := by
  unfold hexVal at h
  split_ifs at h with h1 h2 h3 <;> simp only [Option.some.injEq] at h <;> omega

theorem hexDigit_facts : ∀ n : Fin 16,
    hexVal (hexDigit n.val) = some n.val ∧ hexDigit n.val ≠ Char.ofNat 59 ∧
    hexDigit n.val ≠ Char.ofNat 61 ∧ isOWS (hexDigit n.val) = false ∧
    hexDigit n.val ≠ percentChar := by decide

theorem isUnescaped_spec {c : Char} (h : isUnescaped c = true) :
    c ≠ Char.ofNat 59 ∧ c ≠ Char.ofNat 61 ∧ isOWS c = false ∧ c ≠ percentChar := by
  refine ⟨fun hc => ?_, fun hc => ?_, ?_, fun hc => ?_⟩
  · subst hc; exact absurd h (by decide)
  · subst hc; exact absurd h (by decide)
  · by_contra how
    have how2 : isOWS c = true := by
      cases hb : isOWS c
      · exact absurd hb how
      · rfl
    unfold isOWS at how2
    simp only [Bool.or_eq_true, beq_iff_eq] at how2
    rcases how2 with h2 | h2
    · subst h2; exact absurd h (by decide)
    · subst h2; exact absurd h (by decide)
  · subst hc; exact absurd h (by decide)

theorem mem_encodeList_spec {l : List Char} {d : Char} (hd : d ∈ encodeList l) :
    d ≠ Char.ofNat 59 ∧ d ≠ Char.ofNat 61 ∧ isOWS d = false := by
  unfold encodeList at hd
  obtain ⟨c, _, hdc⟩ := List.mem_flatMap.mp hd
  unfold encodeChar at hdc
  by_cases hc : isUnescaped c
  · rw [if_pos hc] at hdc
    rw [List.mem_singleton] at hdc
    subst hdc
    obtain ⟨a, b, o, _⟩ := isUnescaped_spec hc
    exact ⟨a, b, o⟩
  · rw [if_neg hc] at hdc
    have hhi : c.toNat / 16 % 16 < 16 := Nat.mod_lt _ (by norm_num)
    have hlo : c.toNat % 16 < 16 := Nat.mod_lt _ (by norm_num)
    simp only [List.mem_cons, List.not_mem_nil, or_false] at hdc
    rcases hdc with rfl | rfl | rfl
    · exact ⟨by decide, by decide, by decide⟩
    · obtain ⟨_, f2, f3, f4, _⟩ := hexDigit_facts ⟨c.toNat / 16 % 16, hhi⟩
      exact ⟨f2, f3, f4⟩
    · obtain ⟨_, f2, f3, f4, _⟩ := hexDigit_facts ⟨c.toNat % 16, hlo⟩
      exact ⟨f2, f3, f4⟩

theorem decodeList_nil : decodeList [] = some [] := rfl

theorem decodeList_cons_not_percent {c : Char} (hc : ¬ c = percentChar) (rest : List Char) :
    decodeList (c :: rest) = (decodeList rest).map (fun t => c :: t) := by
  rw [decodeList.eq_def]
  simp only [if_neg hc]

theorem decodeList_percent {h1 h2 : Char} {a b : Nat} (e1 : hexVal h1 = some a)
    (e2 : hexVal h2 = some b) (rest2 : List Char) :
    decodeList (percentChar :: h1 :: h2 :: rest2)
      = (decodeList rest2).map (fun t => Char.ofNat (16 * a + b) :: t) := by
  rw [decodeList.eq_def]
  simp [e1, e2]

theorem decodeList_encodeList : ∀ {l : List Char}, (∀ c ∈ l, c.toNat < 256) →
    decodeList (encodeList l) = some l := by
  intro l
  induction l with
  | nil => intro _; rfl
  | cons c rest ih =>
    intro h
    have hc256 : c.toNat < 256 := h c (List.mem_cons_self c rest)
    have hrest : ∀ d ∈ rest, d.toNat < 256 := fun d hd => h d (List.mem_cons_of_mem c hd)
    show decodeList (encodeList (c :: rest)) = some (c :: rest)
    have hsplit : encodeList (c :: rest) = encodeChar c ++ encodeList rest := by
      unfold encodeList
      rw [List.flatMap_cons]
    rw [hsplit]
    by_cases hc : isUnescaped c
    · rw [encodeChar, if_pos hc, List.singleton_append]
      have hne : ¬ c = percentChar := (isUnescaped_spec hc).2.2.2
      rw [decodeList_cons_not_percent hne, ih hrest]
      rfl
    · rw [encodeChar, if_neg hc]
      simp only [List.cons_append, List.nil_append]
      have hhi : c.toNat / 16 % 16 < 16 := Nat.mod_lt _ (by norm_num)
      have hlo : c.toNat % 16 < 16 := Nat.mod_lt _ (by norm_num)
      have e1 := (hexDigit_facts ⟨c.toNat / 16 % 16, hhi⟩).1
      have e2 := (hexDigit_facts ⟨c.toNat % 16, hlo⟩).1
      rw [decodeList_percent e1 e2, ih hrest]
      have harith : 16 * (c.toNat / 16 % 16) + c.toNat % 16 = c.toNat := by omega
      rw [Option.map_some', harith, Char.ofNat_toNat]

theorem decodeList_lt256 : ∀ (n : Nat) (l : List Char), l.length ≤ n →
    ∀ (d : List Char), decodeList l = some d →
    (∀ c ∈ l, c.toNat < 256) → ∀ c ∈ d, c.toNat < 256 := by
  intro n
  induction n with
  | zero =>
    intro l hl d hd h
    have : l = [] := List.eq_nil_of_length_eq_zero (Nat.le_zero.mp hl)
    subst this
    rw [decodeList_nil, Option.some.injEq] at hd
    subst hd
    simp
  | succ n ih =>
    intro l hl d hd h
    cases l with
    | nil =>
      rw [decodeList_nil, Option.some.injEq] at hd
      subst hd; simp
    | cons c rest =>
      by_cases hc : c = percentChar
      · subst hc
        cases rest with
        | nil => rw [decodeList.eq_def] at hd; simp at hd
        | cons h1 rest1 =>
          cases rest1 with
          | nil => rw [decodeList.eq_def] at hd; simp at hd
          | cons h2 rest2 =>
            cases e1 : hexVal h1 with
            | none => rw [decodeList.eq_def] at hd; simp [e1] at hd
            | some a =>
              cases e2 : hexVal h2 with
              | none => rw [decodeList.eq_def] at hd; simp [e1, e2] at hd
              | some b =>
                rw [decodeList_percent e1 e2] at hd
                cases e3 : decodeList rest2 with
                | none => rw [e3] at hd; simp at hd
                | some t =>
                  rw [e3] at hd
                  simp only [Option.map_some', Option.some.injEq] at hd
                  subst hd
                  intro x hx
                  rcases List.mem_cons.mp hx with rfl | hx
                  · have ha := hexVal_lt16 e1
                    have hb := hexVal_lt16 e2
                    rw [toNat_ofNat_lt (by omega)]
                    omega
                  · refine ih rest2 ?_ t e3 ?_ x hx
                    · simp only [List.length_cons] at hl; omega
                    · intro y hy
                      exact h y (List.mem_cons_of_mem _ (List.mem_cons_of_mem h1
                        (List.mem_cons_of_mem h2 hy)))
      · rw [decodeList_cons_not_percent hc] at hd
        cases e3 : decodeList rest with
        | none => rw [e3] at hd; simp at hd
        | some t =>
          rw [e3] at hd
          simp only [Option.map_some', Option.some.injEq] at hd
          subst hd
          intro x hx
          rcases List.mem_cons.mp hx with rfl | hx
          · exact h x (List.mem_cons_self x rest)
          · refine ih rest ?_ t e3 ?_ x hx
            · simp only [List.length_cons] at hl; omega
            · intro y hy
              exact h y (List.mem_cons_of_mem c hy)

theorem tryDecode_lt256 {l : List Char} (h : ∀ c ∈ l, c.toNat < 256) :
    ∀ c ∈ tryDecode l, c.toNat < 256 := by
  unfold tryDecode
  cases hd : decodeList l with
  | none => exact h
  | some d => exact decodeList_lt256 l.length l (Nat.le_refl _) d hd h

theorem tryDecode_encodeList {l : List Char} (h : ∀ c ∈ l, c.toNat < 256) :
    tryDecode (encodeList l) = l := by
  unfold tryDecode
  rw [decodeList_encodeList h]

/-! ### Helper lemmas: the accumulator heap -/

theorem getServerClient_ok {env : Env} {req : Request} {w : World} {r : GSCResult}
    (h : getServerClient env req w = .ok r) :
    r.client.cookiesRef = w.nextRef ∧ r.client.request = req ∧ r.headersRef = w.nextRef ∧
    r.world.nextRef = w.nextRef + 1 ∧
    r.world.heap = fun i => if i = w.nextRef then [] else w.heap i := by
  unfold getServerClient at h
  split at h
  · cases h
    exact ⟨rfl, rfl, rfl, rfl, rfl⟩
  · cases h

theorem getServerClient_ok_of_isSome {env : Env} (h1 : env.SUPABASE_URL.isSome = true)
    (h2 : env.SUPABASE_ANON_KEY.isSome = true) (req : Request) (w : World) :
    ∃ r, getServerClient env req w = .ok r := by
  obtain ⟨u, hu⟩ := Option.isSome_iff_exists.mp h1
  obtain ⟨k, hk⟩ := Option.isSome_iff_exists.mp h2
  exact ⟨⟨⟨w.nextRef, req⟩, w.nextRef,
      ⟨w.nextRef + 1, fun i => if i = w.nextRef then [] else w.heap i⟩⟩,
    by unfold getServerClient; rw [hu, hk]⟩

theorem invokeSetAll_heap_self (c : ClientHandle) : ∀ (batch : List CookieToSet) (w : World),
    (invokeSetAll c batch w).heap c.cookiesRef
      = w.heap c.cookiesRef ++ batch.map serializeEntry := by
  intro batch
  induction batch with
  | nil => intro w; simp [invokeSetAll]
  | cons b bs ih =>
    intro w
    show (invokeSetAll c bs (headersAppend w c.cookiesRef (serializeEntry b))).heap c.cookiesRef
      = w.heap c.cookiesRef ++ (b :: bs).map serializeEntry
    rw [ih]
    simp [headersAppend]

theorem invokeSetAll_heap_other {i : Nat} (c : ClientHandle) (hne : i ≠ c.cookiesRef) :
    ∀ (batch : List CookieToSet) (w : World), (invokeSetAll c batch w).heap i = w.heap i := by
  intro batch
  induction batch with
  | nil => intro w; simp [invokeSetAll]
  | cons b bs ih =>
    intro w
    show (invokeSetAll c bs (headersAppend w c.cookiesRef (serializeEntry b))).heap i = w.heap i
    rw [ih]
    simp [headersAppend, if_neg hne]

theorem runSetAllCalls_heap (c : ClientHandle) : ∀ (invs : List (List CookieToSet)) (w : World),
    (runSetAllCalls c invs w).heap c.cookiesRef
      = w.heap c.cookiesRef ++ invs.flatten.map serializeEntry := by
  intro invs
  induction invs with
  | nil => intro w; simp [runSetAllCalls]
  | cons batch rest ih =>
    intro w
    show (runSetAllCalls c rest (invokeSetAll c batch w)).heap c.cookiesRef
      = w.heap c.cookiesRef ++ ((batch :: rest).flatten).map serializeEntry
    rw [ih, invokeSetAll_heap_self]
    simp [List.flatten_cons]

theorem flatten_length_of_singletons : ∀ {invs : List (List CookieToSet)},
    (∀ b ∈ invs, b.length = 1) → invs.flatten.length = invs.length := by
  intro invs
  induction invs with
  | nil => intro _; rfl
  | cons b rest ih =>
    intro h
    rw [List.flatten_cons, List.length_append, h b (List.mem_cons_self b rest),
      ih (fun x hx => h x (List.mem_cons_of_mem b hx))]
    simp [Nat.add_comm]

theorem runInterleaved_heap {ca cb : ClientHandle} (hne : ca.cookiesRef ≠ cb.cookiesRef) :
    ∀ (ops : List (Bool × List CookieToSet)) (w : World),
    (runInterleaved ca cb ops w).heap ca.cookiesRef
        = w.heap ca.cookiesRef ++ (writesFor true ops).map serializeEntry
    ∧ (runInterleaved ca cb ops w).heap cb.cookiesRef
        = w.heap cb.cookiesRef ++ (writesFor false ops).map serializeEntry := by
  intro ops
  induction ops with
  | nil => intro w; simp [runInterleaved, writesFor]
  | cons op rest ih =>
    intro w
    have step : runInterleaved ca cb (op :: rest) w
        = runInterleaved ca cb rest (invokeSetAll (if op.1 then ca else cb) op.2 w) := rfl
    cases hop : op.1
    · have hsel : (if op.1 then ca else cb) = cb := by rw [hop]; rfl
      rw [step, hsel]
      obtain ⟨iha, ihb⟩ := ih (invokeSetAll cb op.2 w)
      constructor
      · rw [iha, invokeSetAll_heap_other cb hne]
        have : writesFor true (op :: rest) = writesFor true rest := by
          unfold writesFor
          rw [List.filter_cons_of_neg (by simp [hop])]
        rw [this]
      · rw [ihb, invokeSetAll_heap_self]
        have : writesFor false (op :: rest) = op.2 ++ writesFor false rest := by
          unfold writesFor
          rw [List.filter_cons_of_pos (by simp [hop])]
          simp [List.flatten_cons]
        rw [this]
        simp [List.append_assoc]
    · have hsel : (if op.1 then ca else cb) = ca := by rw [hop]; rfl
      rw [step, hsel]
      obtain ⟨iha, ihb⟩ := ih (invokeSetAll ca op.2 w)
      constructor
      · rw [iha, invokeSetAll_heap_self]
        have : writesFor true (op :: rest) = op.2 ++ writesFor true rest := by
          unfold writesFor
          rw [List.filter_cons_of_pos (by simp [hop])]
          simp [List.flatten_cons]
        rw [this]
        simp [List.append_assoc]
      · rw [ihb, invokeSetAll_heap_other ca (Ne.symm hne)]
        have : writesFor false (op :: rest) = writesFor false rest := by
          unfold writesFor
          rw [List.filter_cons_of_neg (by simp [hop])]
        rw [this]

/-! ### Helper lemma: round trip of one parsed pair -/

theorem parse_of_serialized {nm vl : List Char} (hnEq : Char.ofNat 61 ∉ nm)
    (hnSemi : Char.ofNat 59 ∉ nm) (hnTrim : trimOWS nm = nm)
    (hv256 : ∀ c ∈ vl, c.toNat < 256) :
    parseCookieHeader (serializeCookieHeader (String.mk nm) (String.mk vl)
        ⟨none, none, none⟩) = [⟨String.mk nm, String.mk vl⟩] := by
  have hsuffix : (optionsSuffix ⟨none, none, none⟩).toList = [] := rfl
  have hser : (serializeCookieHeader (String.mk nm) (String.mk vl)
      ⟨none, none, none⟩).toList = nm ++ Char.ofNat 61 :: encodeList vl := by
    unfold serializeCookieHeader
    show nm ++ Char.ofNat 61 :: encodeList vl ++ (optionsSuffix ⟨none, none, none⟩).toList
      = nm ++ Char.ofNat 61 :: encodeList vl
    rw [hsuffix, List.append_nil]
  have hseg : parseCookieSegment (nm ++ Char.ofNat 61 :: encodeList vl)
      = some ⟨String.mk nm, String.mk vl⟩ := by
    unfold parseCookieSegment
    rw [splitFirstEq_append hnEq]
    show some (Cookie.mk (String.mk (trimOWS nm)) (String.mk (tryDecode (trimOWS (encodeList vl)))))
      = some (Cookie.mk (String.mk nm) (String.mk vl))
    rw [hnTrim, trimOWS_eq_self_of_all (fun c hc => (mem_encodeList_spec hc).2.2),
      tryDecode_encodeList hv256]
  have hnosemi : Char.ofNat 59 ∉ nm ++ Char.ofNat 61 :: encodeList vl := by
    intro hmem
    rcases List.mem_append.mp hmem with hm | hm
    · exact hnSemi hm
    · rcases List.mem_cons.mp hm with hm | hm
      · exact absurd hm.symm (by decide)
      · exact (mem_encodeList_spec hm).1 rfl
  unfold parseCookieHeader
  rw [hser, splitOnChar_eq_single hnosemi]
  simp [List.filterMap_cons, hseg]

/-! ### Claim theorems -/

/-- C1: after any sequence of write-callback invocations during one request,
the accumulator holds exactly the serialized Set-Cookie headers of the
instructions, in invocation order; with one instruction per invocation it
holds exactly N headers for N invocations, so invoking the callback twice
with the same cookie name leaves both headers in invocation order. -/
theorem setAll_accumulates_in_order (env : Env) (req : Request) (w : World)
    (r : GSCResult) (hr : getServerClient env req w = .ok r)
    (invs : List (List CookieToSet)) :
    (runSetAllCalls r.client invs r.world).heap r.headersRef
      = invs.flatten.map serializeEntry
    ∧ ((∀ b ∈ invs, b.length = 1) →
        ((runSetAllCalls r.client invs r.world).heap r.headersRef).length = invs.length) := by
  obtain ⟨h1, _, h3, _, h5⟩ := getServerClient_ok hr
  have hinit : r.world.heap r.headersRef = [] := by rw [h5, h3]; simp
  have key := runSetAllCalls_heap r.client invs r.world
  rw [h1, ← h3] at key
  rw [key, hinit, List.nil_append]
  refine ⟨rfl, fun hone => ?_⟩
  rw [List.length_map, flatten_length_of_singletons hone]

/-- Witness for C1: two invocations setting the same cookie name leave the two
headers sid=old, sid=new in that order. -/
theorem setAll_accumulates_in_order_witness :
    (runSetAllCalls gscDemoA.client
        [[⟨"sid", "old", noOpts⟩], [⟨"sid", "new", noOpts⟩]] gscDemoA.world).heap
        gscDemoA.headersRef
      = [("Set-Cookie", "sid=old"), ("Set-Cookie", "sid=new")] := by
  have h := (setAll_accumulates_in_order envDemo reqDemoA worldDemo gscDemoA rfl
      [[⟨"sid", "old", noOpts⟩], [⟨"sid", "new", noOpts⟩]]).1
  rw [h]
  decide

/-- C2: the headers object getServerClient returns is the very reference the
write callback of the handle appends to, so every Set-Cookie header produced
through the handle during the handling cycle is visible through the returned
headers once handling completes. -/
theorem headers_shared_with_handle (env : Env) (req : Request) (w : World)
    (r : GSCResult) (hr : getServerClient env req w = .ok r) :
    r.client.cookiesRef = r.headersRef
    ∧ ∀ (w2 : World) (batch : List CookieToSet),
        (invokeSetAll r.client batch w2).heap r.headersRef
          = w2.heap r.headersRef ++ batch.map serializeEntry := by
  obtain ⟨h1, _, h3, _, _⟩ := getServerClient_ok hr
  have hrefs : r.client.cookiesRef = r.headersRef := by rw [h1, h3]
  refine ⟨hrefs, fun w2 batch => ?_⟩
  have key := invokeSetAll_heap_self r.client batch w2
  rw [hrefs] at key
  exact key

/-- Witness for C2: the spec scenario, one instruction sid=newtoken with
path slash, lands in the returned accumulator. -/
theorem headers_shared_with_handle_witness :
    gscDemoA.client.cookiesRef = gscDemoA.headersRef
    ∧ (invokeSetAll gscDemoA.client [⟨"sid", "newtoken", ⟨some "/", none, none⟩⟩]
        gscDemoA.world).heap gscDemoA.headersRef
      = [("Set-Cookie", "sid=newtoken; Path=/")] := by
  have h := headers_shared_with_handle envDemo reqDemoA worldDemo gscDemoA rfl
  refine ⟨h.1, ?_⟩
  rw [h.2 gscDemoA.world [⟨"sid", "newtoken", ⟨some "/", none, none⟩⟩]]
  decide

/-- C3: two instances created for two requests are isolated: they hold
distinct, initially empty accumulators, each read callback reflects only its
own request cookies, and for every interleaving of writes through the two
handles each accumulator ends up with exactly its own writes. -/
theorem instances_isolated (env : Env) (reqX reqY : Request) (w : World)
    (a b : GSCResult)
    (ha : getServerClient env reqX w = .ok a)
    (hb : getServerClient env reqY a.world = .ok b)
    (ops : List (Bool × List CookieToSet)) :
    a.headersRef ≠ b.headersRef
    ∧ a.world.heap a.headersRef = []
    ∧ b.world.heap b.headersRef = []
    ∧ invokeGetAll a.client = parseCookieHeader (reqX.cookieHeader.getD "")
    ∧ invokeGetAll b.client = parseCookieHeader (reqY.cookieHeader.getD "")
    ∧ (runInterleaved a.client b.client ops b.world).heap a.headersRef
        = (writesFor true ops).map serializeEntry
    ∧ (runInterleaved a.client b.client ops b.world).heap b.headersRef
        = (writesFor false ops).map serializeEntry := by
  obtain ⟨a1, a2, a3, a4, a5⟩ := getServerClient_ok ha
  obtain ⟨b1, b2, b3, b4, b5⟩ := getServerClient_ok hb
  have hrefs : a.headersRef ≠ b.headersRef := by rw [a3, b3, a4]; omega
  have haheap : a.world.heap a.headersRef = [] := by rw [a5, a3]; simp
  have hbheapb : b.world.heap b.headersRef = [] := by rw [b5, b3]; simp
  have hbheapa : b.world.heap a.headersRef = [] := by
    rw [b5]
    show (if a.headersRef = a.world.nextRef then [] else a.world.heap a.headersRef) = []
    rw [if_neg (by rw [a3, a4]; omega)]
    exact haheap
  have hne : a.client.cookiesRef ≠ b.client.cookiesRef := by rw [a1, b1, a4]; omega
  have hac : a.client.cookiesRef = a.headersRef := by rw [a1, a3]
  have hbc : b.client.cookiesRef = b.headersRef := by rw [b1, b3]
  obtain ⟨hA, hB⟩ := runInterleaved_heap hne ops b.world
  rw [hac] at hA
  rw [hbc] at hB
  rw [hbheapa, List.nil_append] at hA
  rw [hbheapb, List.nil_append] at hB
  refine ⟨hrefs, haheap, hbheapb, ?_, ?_, hA, hB⟩
  · rw [invokeGetAll, a2]
    rfl
  · rw [invokeGetAll, b2]
    rfl

/-- Witness for C3: handles for sid=abc and sid=xyz read their own cookie and
an interleaved write sequence lands each write only in its own accumulator. -/
theorem instances_isolated_witness :
    gscDemoA.headersRef ≠ gscDemoB.headersRef
    ∧ invokeGetAll gscDemoA.client = [⟨"sid", "abc"⟩]
    ∧ invokeGetAll gscDemoB.client = [⟨"sid", "xyz"⟩]
    ∧ (runInterleaved gscDemoA.client gscDemoB.client
        [(true, [⟨"sid", "a2", noOpts⟩]), (false, [⟨"sid", "x2", noOpts⟩])]
        gscDemoB.world).heap gscDemoA.headersRef = [("Set-Cookie", "sid=a2")]
    ∧ (runInterleaved gscDemoA.client gscDemoB.client
        [(true, [⟨"sid", "a2", noOpts⟩]), (false, [⟨"sid", "x2", noOpts⟩])]
        gscDemoB.world).heap gscDemoB.headersRef = [("Set-Cookie", "sid=x2")] := by
  have h := instances_isolated envDemo reqDemoA reqDemoB worldDemo gscDemoA gscDemoB rfl rfl
      [(true, [⟨"sid", "a2", noOpts⟩]), (false, [⟨"sid", "x2", noOpts⟩])]
  refine ⟨h.1, ?_, ?_, ?_, ?_⟩
  · rw [h.2.2.2.1]; decide
  · rw [h.2.2.2.2.1]; decide
  · rw [h.2.2.2.2.2.1]; decide
  · rw [h.2.2.2.2.2.2]; decide

/-- C4: for a request whose Cookie header is absent or empty, the produced
InboundCookieSet is empty: the read callback of the handle returns the empty
mapping. -/
theorem getAll_empty_of_no_cookie (env : Env) (w : World) (req : Request)
    (r : GSCResult) (hr : getServerClient env req w = .ok r)
    (h : req.cookieHeader = none ∨ req.cookieHeader = some "") :
    invokeGetAll r.client = [] := by
  obtain ⟨_, h2, _, _, _⟩ := getServerClient_ok hr
  rw [invokeGetAll, h2]
  unfold getAll
  rcases h with h | h <;> rw [h] <;> decide

/-- Witness for C4: the handle of a request with no Cookie header reads the
empty mapping. -/
theorem getAll_empty_of_no_cookie_witness : invokeGetAll gscEmpty.client = [] :=
  getAll_empty_of_no_cookie envDemo worldDemo reqEmpty gscEmpty rfl (Or.inl rfl)

/-- C5 counterexample: with both configuration values absent, process start
still succeeds (the module performs no startup validation), and the failure
instead surfaces when getServerClient runs for a request; so absence is not
a fatal process-terminating condition at startup. -/
theorem startup_validation_counterexample :
    processStart envMissing = Except.ok ()
    ∧ getServerClient envMissing reqEmpty worldDemo
        = Except.error ConfigError.missingConfig :=
  ⟨rfl, rfl⟩

/-- C5 amended: the two configuration values are not validated at process
start, which always succeeds; they are read inside getServerClient on each
request, and absence of either surfaces there as a per-request error. -/
theorem startup_validation_deferred (env : Env) :
    processStart env = Except.ok ()
    ∧ ((env.SUPABASE_URL = none ∨ env.SUPABASE_ANON_KEY = none) →
        ∀ (req : Request) (w : World),
          getServerClient env req w = Except.error ConfigError.missingConfig) := by
  refine ⟨rfl, fun h req w => ?_⟩
  unfold getServerClient
  cases hu : env.SUPABASE_URL with
  | none => rfl
  | some u =>
    cases hk : env.SUPABASE_ANON_KEY with
    | none => rfl
    | some k =>
      rcases h with h | h
      · rw [hu] at h; cases h
      · rw [hk] at h; cases h

/-- Witness for C5 amended: with the URL absent, startup succeeds and the
per-request construction fails. -/
theorem startup_validation_deferred_witness :
    processStart ⟨none, some "anon-key"⟩ = Except.ok ()
    ∧ getServerClient ⟨none, some "anon-key"⟩ reqEmpty worldDemo
        = Except.error ConfigError.missingConfig :=
  ⟨(startup_validation_deferred ⟨none, some "anon-key"⟩).1,
    (startup_validation_deferred ⟨none, some "anon-key"⟩).2 (Or.inl rfl) reqEmpty worldDemo⟩

/-- C6: a malformed Cookie header never raises an error: with configuration
present the client construction succeeds regardless of the header, and a
header whose segments all fail to parse silently degrades to the empty
cookie set. -/
theorem malformed_cookie_recovers_silently (env : Env) (w : World) (req : Request)
    (s : String)
    (henv : env.SUPABASE_URL.isSome = true ∧ env.SUPABASE_ANON_KEY.isSome = true)
    (hs : req.cookieHeader = some s)
    (hbad : ∀ seg ∈ splitOnChar (Char.ofNat 59) s.toList, parseCookieSegment seg = none) :
    (getServerClient env req w).isOk = true ∧ getAll req = [] := by
  constructor
  · obtain ⟨r, hr⟩ := getServerClient_ok_of_isSome henv.1 henv.2 req w
    rw [hr]
    rfl
  · unfold getAll
    rw [hs]
    show parseCookieHeader s = []
    unfold parseCookieHeader
    exact List.filterMap_eq_nil_iff.mpr hbad

/-- Witness for C6: a header with no equals sign anywhere parses to the empty
set and the client construction still succeeds. -/
theorem malformed_cookie_recovers_silently_witness :
    (getServerClient envDemo reqGarbage worldDemo).isOk = true
    ∧ getAll reqGarbage = [] :=
  malformed_cookie_recovers_silently envDemo worldDemo reqGarbage
    "complete garbage header" (by decide) rfl (by decide)

/-- C7: for every valid Cookie header (single-byte characters in this byte
level model), parsing it into pairs and re-serializing a parsed pair
round-trips the name and the value exactly, modulo the percent-encoding
transform: re-parsing the serialized header yields exactly that pair. -/
theorem parse_serialize_roundtrip (h : String)
    (hbyte : ∀ c ∈ h.toList, c.toNat < 256)
    (p : Cookie) (hp : p ∈ parseCookieHeader h) :
    parseCookieHeader (serializeCookieHeader p.name p.value ⟨none, none, none⟩) = [p] := by
  unfold parseCookieHeader at hp
  obtain ⟨seg, hseg, hparse⟩ := List.mem_filterMap.mp hp
  unfold parseCookieSegment at hparse
  cases hsp : splitFirstEq seg with
  | none => rw [hsp] at hparse; cases hparse
  | some nv =>
    obtain ⟨n, v⟩ := nv
    rw [hsp] at hparse
    simp only [Option.some.injEq] at hparse
    subst hparse
    obtain ⟨hseq, hnEq⟩ := splitFirstEq_eq_some hsp
    have hsegsub : ∀ c ∈ seg, c ∈ h.toList := mem_of_mem_splitOnChar hseg
    have hsemi : Char.ofNat 59 ∉ seg := not_sep_of_mem_splitOnChar hseg
    have hnEq2 : Char.ofNat 61 ∉ trimOWS n := fun hm => hnEq (mem_of_mem_trimOWS hm)
    have hnSemi : Char.ofNat 59 ∉ trimOWS n := fun hm => hsemi
      (by rw [hseq]; exact List.mem_append.mpr (Or.inl (mem_of_mem_trimOWS hm)))
    have hnTrim : trimOWS (trimOWS n) = trimOWS n := trimOWS_idem n
    have hv256seg : ∀ c ∈ v, c.toNat < 256 := fun c hc => hbyte c (hsegsub c
      (by rw [hseq]; exact List.mem_append.mpr (Or.inr (List.mem_cons_of_mem _ hc))))
    have hvtrim : ∀ c ∈ trimOWS v, c.toNat < 256 :=
      fun c hc => hv256seg c (mem_of_mem_trimOWS hc)
    have hval : ∀ c ∈ tryDecode (trimOWS v), c.toNat < 256 := tryDecode_lt256 hvtrim
    exact parse_of_serialized hnEq2 hnSemi hnTrim hval

/-- Witness for C7: the pair sid, abc d parsed from a header with a
percent-encoded space round-trips through serialization. -/
theorem parse_serialize_roundtrip_witness :
    parseCookieHeader (serializeCookieHeader (Cookie.mk "sid" "abc d").name
        (Cookie.mk "sid" "abc d").value ⟨none, none, none⟩)
      = [Cookie.mk "sid" "abc d"] :=
  parse_serialize_roundtrip "sid=abc%20d; x=y" (by decide) ⟨"sid", "abc d"⟩ (by decide)

/-- C8: the crud action is total: it always resolves with a plain value,
either the value of its try block, or, when the try block throws anywhere
(client construction, form parsing, database call), the fixed catch value
data null and error An error occurred. -/
theorem crudAction_total (env : Env) (w : World) (req : Request)
    (fdE : Except Unit FormData) (db : DbOp → DbOutcome) :
    (∃ r, (actionBody env w req fdE db).1 = .ok r
        ∧ (crudAction env w req fdE db).1 = r)
    ∨ ((actionBody env w req fdE db).1 = .error ()
        ∧ (crudAction env w req fdE db).1 = ⟨none, some "An error occurred"⟩) := by
  unfold crudAction
  cases hab : actionBody env w req fdE db with
  | mk e log =>
    cases e with
    | ok r =>
      left
      exact ⟨r, rfl, rfl⟩
    | error u =>
      right
      cases u
      exact ⟨rfl, rfl⟩

/-- C9: a form submission whose actionType is none of addItem, editItem,
deleteItem (including an absent field) triggers no database operation and
resolves with data null and error Invalid action type. -/
theorem crudAction_invalid_action_type (env : Env) (w : World) (req : Request)
    (fd : FormData) (db : DbOp → DbOutcome)
    (henv : env.SUPABASE_URL.isSome = true ∧ env.SUPABASE_ANON_KEY.isSome = true)
    (hat : fd.get "actionType" ≠ some "addItem" ∧ fd.get "actionType" ≠ some "editItem"
        ∧ fd.get "actionType" ≠ some "deleteItem") :
    crudAction env w req (.ok fd) db = (⟨none, some "Invalid action type"⟩, []) := by
  obtain ⟨r, hr⟩ := getServerClient_ok_of_isSome henv.1 henv.2 req w
  unfold crudAction actionBody
  rw [hr]
  simp only [if_neg hat.1, if_neg hat.2.1, if_neg hat.2.2]

/-- Witness for C9: a submission with actionType bogus resolves with the
invalid-action-type error and an empty database log. -/
theorem crudAction_invalid_action_type_witness :
    crudAction envDemo worldDemo reqDemoA (.ok ⟨[("actionType", "bogus")]⟩)
        (fun _ => DbOutcome.okRows [])
      = (⟨none, some "Invalid action type"⟩, []) :=
  crudAction_invalid_action_type envDemo worldDemo reqDemoA ⟨[("actionType", "bogus")]⟩
    (fun _ => DbOutcome.okRows []) (by decide) (by decide)

/-- C10 (code bug): on every request with configuration present, the home
loader throws a TypeError before any auth-service call, because it calls
getUser on the auth member of the wrapper getServerClient returns, and that
member is undefined; so it never throws the redirect to /login and never
returns a user, whatever the auth response would have been. The claimed
behavior is the intent (the loader docstring says it checks login, and the
sibling login variant reaches the service through the client field); the
missing client step here is the slip. -/
theorem homeLoader_always_type_error (env : Env) (w : World) (req : Request)
    (resp : UserResponse)
    (henv : env.SUPABASE_URL.isSome = true ∧ env.SUPABASE_ANON_KEY.isSome = true) :
    homeLoader env w req resp = .error LoaderThrow.typeError
    ∧ (∀ d, homeLoader env w req resp ≠ Except.ok d)
    ∧ homeLoader env w req resp ≠ .error (LoaderThrow.redirectTo "/login") := by
  obtain ⟨r, hr⟩ := getServerClient_ok_of_isSome henv.1 henv.2 req w
  have key : homeLoader env w req resp = .error LoaderThrow.typeError := by
    unfold homeLoader
    rw [hr]
    rfl
  refine ⟨key, fun d hd => ?_, fun hd => ?_⟩
  · rw [key] at hd; cases hd
  · rw [key] at hd; simp at hd

/-- Witness for C10: both with an auth response carrying a user and no error,
and with one carrying no user, the loader throws the TypeError rather than
returning the user or redirecting. -/
theorem homeLoader_always_type_error_witness :
    homeLoader envDemo worldDemo reqDemoA ⟨some ⟨"user@example.com"⟩, none⟩
      = .error LoaderThrow.typeError
    ∧ homeLoader envDemo worldDemo reqDemoA ⟨none, none⟩
      = .error LoaderThrow.typeError :=
  ⟨(homeLoader_always_type_error envDemo worldDemo reqDemoA
      ⟨some ⟨"user@example.com"⟩, none⟩ (by decide)).1,
   (homeLoader_always_type_error envDemo worldDemo reqDemoA
      ⟨none, none⟩ (by decide)).1⟩

end SbApp
